import Mathlib

/-!
Verification development for the CubiCal slope-parameterised phase gain
machine (src/cubical/machines/slope_machine.py) and the simple parameter
database (src/cubical/param_db.py).

Tensors are embedded as total functions from natural-number indices to
values; machine floating point is embedded as exact rationals.  Complex
visibility values are embedded as pairs of rationals.  The dense Cython
kernels (cubical.kernels.cytf_plane / cyf_slope / cyt_slope) are not part
of the provided sources; every definition standing in for one of them is
marked in its doc comment as modelled from the spec.
-/

/-- Exact rational complex number standing in for a numpy complex value. -/
structure QC where
  re : ℚ
  im : ℚ
deriving DecidableEq

/-- Complex zero. -/
def QC.zero : QC := ⟨0, 0⟩

/-- Complex addition. -/
def QC.add (x y : QC) : QC := ⟨x.re + y.re, x.im + y.im⟩

/-- Complex subtraction. -/
def QC.sub (x y : QC) : QC := ⟨x.re - y.re, x.im - y.im⟩

/-- Complex multiplication. -/
def QC.mul (x y : QC) : QC := ⟨x.re * y.re - x.im * y.im, x.re * y.im + x.im * y.re⟩

/-- Complex conjugation, the embedding of numpy conj. -/
def QC.conj (x : QC) : QC := ⟨x.re, -x.im⟩

theorem QC.conj_conj (x : QC) : x.conj.conj = x := by
  cases x with
  | mk r i => simp [QC.conj]

/-- Finite sum of complex values over indices 0, ..., n-1. -/
def qcSum (n : Nat) (f : Nat → QC) : QC :=
  match n with
  | 0 => QC.zero
  | k + 1 => (qcSum k f).add (f k)

/-- Embedding of numpy sqrt on the rational values the claims are evaluated
at.  It is exact whenever the numerator and denominator of a nonnegative
rational are perfect squares (in particular on the concrete inputs used by
the counterexamples and witnesses below); a negative argument maps to 0. -/
def ratSqrt (x : ℚ) : ℚ :=
  if 0 ≤ x then (Nat.sqrt x.num.toNat : ℚ) / (Nat.sqrt x.den : ℚ) else 0

/-- Floating-point precision class of a numpy dtype (single or double). -/
inductive DType
  | single
  | double
deriving DecidableEq

/-- One-dimensional numpy array carrying a dtype tag and rational data. -/
structure NArray where
  data : List ℚ
  dtype : DType
deriving DecidableEq

/-- Embedding of slope_machine._normalize: normalizes an array to the [0,1]
interval.  For length above one the code returns
((x - x[0]) / (x[-1] - x[0])).astype(dtype); for length one it returns
np.zeros(1, dtype); otherwise it returns x unchanged.  In the first branch
the list is nonempty, so headD / getLastD coincide with x[0] / x[-1]. -/
def _normalize (x : NArray) (dt : DType) : NArray :=
  if 1 < x.data.length then
    { data := x.data.map
        (fun v => (v - x.data.headD 0) / (x.data.getLastD 0 - x.data.headD 0)),
      dtype := dt }
  else if x.data.length = 1 then { data := [0], dtype := dt }
  else x

/-- Semantic labels of slope components, the keys of the _labels dict. -/
inductive Label
  | phase
  | delay
  | rate
deriving DecidableEq, BEq

/-- Construction-time failure of the machine (Python RuntimeError). -/
inductive InitError
  | unknownTypeSetting
deriving DecidableEq

/-- Slope-parameter tensor, indexed by (direction, time interval, freq
interval, antenna, slope component, correlation row, correlation col). -/
abbrev TParams := Nat → Nat → Nat → Nat → Nat → Nat → Nat → ℚ

/-- JHJ-inverse tensor, indexed by (direction, time interval, freq interval,
antenna, flattened block index, correlation row, correlation col). -/
abbrev TJHJ := Nat → Nat → Nat → Nat → Nat → Nat → Nat → ℚ

/-- Visibility tensor, indexed by (model, time, freq, antenna p, antenna q,
correlation row, correlation col). -/
abbrev TVis := Nat → Nat → Nat → Nat → Nat → Nat → Nat → QC

/-- Model visibility tensor: a visibility tensor per direction. -/
abbrev TModel := Nat → TVis

/-- Gain tensor, indexed by (direction, time, freq, antenna, correlation row,
correlation col). -/
abbrev TGains := Nat → Nat → Nat → Nat → Nat → Nat → QC

/-- Slice of the parameter tensor at one slope component restricted to the
correlation diagonal: (direction, time interval, freq interval, antenna,
correlation). -/
abbrev TSliceVal := Nat → Nat → Nat → Nat → Nat → ℚ

/-- Posterior slope-error tensor, indexed by (direction, time interval, freq
interval, antenna, diag component position, correlation). -/
abbrev TPSE := Nat → Nat → Nat → Nat → Nat → Nat → ℚ

/-- Posterior gain-error tensor, indexed like the gain tensor. -/
abbrev TGErr := Nat → Nat → Nat → Nat → Nat → Nat → ℚ

/-- Embedding of the PhaseSlopeGains machine state.  Fields of the base
class ParameterisedGains used by this machine (interval counts, interval
widths, reference antenna, fixed directions, iteration counter, posterior
gain error) are carried directly; the base class source is not under src/
and those fields are modelled from the configuration list in the spec.
The field cis stands for the transcendental unit-modulus complex
exponential used by the gain-construction kernel (the kernel is not in
src/); it is carried as opaque data selected at construction, exactly like
the kernel module binding self.cyslope. -/
structure PhaseSlopeGains where
  slope_type : String
  n_dir : Nat
  n_mod : Nat
  n_tim : Nat
  n_fre : Nat
  n_timint : Nat
  n_freint : Nat
  n_ant : Nat
  t_int : Nat
  f_int : Nat
  n_param : Nat
  labels : List (Label × Nat)
  slope_params : TParams
  posterior_slope_error : Option TPSE
  posterior_gain_error : Option TGErr
  gains : TGains
  chunk_ts : NArray
  chunk_fs : NArray
  ref_ant : Option Nat
  fix_directions : List Nat
  jhjinv : TJHJ
  eps : ℚ
  iters : Nat
  cis : ℚ → QC

/-- Embedding of PhaseSlopeGains.__init__.  A Python exception during
construction yields no instance, which is embedded as Except: the error
branch carries no machine value, so no partial state escapes.  The interval
counts follow the ceiling-division invariant of the spec data model. -/
def PhaseSlopeGains.init (ndir nmod ntim nfre nant tint fint : Nat)
    (chunk_ts chunk_fs : NArray) (ftype : DType) (ref_ant : Option Nat)
    (fix_directions : List Nat) (eps : ℚ) (cis : ℚ → QC)
    (opt_type : String) : Except InitError PhaseSlopeGains :=
  let base : PhaseSlopeGains :=
    { slope_type := opt_type
      n_dir := ndir
      n_mod := nmod
      n_tim := ntim
      n_fre := nfre
      n_timint := (ntim + tint - 1) / tint
      n_freint := (nfre + fint - 1) / fint
      n_ant := nant
      t_int := tint
      f_int := fint
      n_param := if opt_type = "tf-plane" then 3 else 2
      labels := []
      slope_params := fun _ _ _ _ _ _ _ => 0
      posterior_slope_error := none
      posterior_gain_error := none
      gains := fun _ _ _ _ _ _ => QC.zero
      chunk_ts := _normalize chunk_ts ftype
      chunk_fs := _normalize chunk_fs ftype
      ref_ant := ref_ant
      fix_directions := fix_directions
      jhjinv := fun _ _ _ _ _ _ _ => 0
      eps := eps
      iters := 0
      cis := cis }
  if opt_type = "tf-plane" then
    Except.ok { base with labels := [(Label.phase, 2), (Label.delay, 0), (Label.rate, 1)] }
  else if opt_type = "f-slope" then
    Except.ok { base with labels := [(Label.phase, 1), (Label.delay, 0)] }
  else if opt_type = "t-slope" then
    Except.ok { base with labels := [(Label.phase, 1), (Label.rate, 0)] }
  else
    Except.error InitError.unknownTypeSetting

/-- Embedding of PhaseSlopeGains.restrict_solution restricted to its action
on the slope-parameter tensor.  The inherited base-class method does not
touch slope parameters (spec section 4.6 step 5 describes the restriction
entirely as the two operations below).  When a reference antenna is
designated, the values of that antenna are subtracted from every antenna
(numpy buffers the overlapping operand, so the subtrahend is the
pre-update value); then every fixed direction is zeroed. -/
def restrict_solution (ref_ant : Option Nat) (fix_directions : List Nat)
    (p : TParams) : TParams :=
  let p1 : TParams :=
    match ref_ant with
    | some r => fun d t f a k c1 c2 => p d t f a k c1 c2 - p d t f r k c1 c2
    | none => p
  fun d t f a k c1 c2 => if d ∈ fix_directions then 0 else p1 d t f a k c1 c2

/-- Embedding of the diagonal index set of implement_update: (0,2) when
n_param is 2, else (0,3,5) -- the positions of the diagonal blocks in the
flattened symmetric block layout. -/
def diag_idx (n_param : Nat) : List Nat :=
  if n_param = 2 then [0, 2] else [0, 3, 5]

/-- Flattened upper-triangular index of entry (k, j) of a symmetric
n-by-n block matrix stored row-major: the layout under which diag_idx
picks out the diagonal blocks. -/
def block_index (n k j : Nat) : Nat :=
  let a := min k j
  let b := max k j
  a * n - a * (a - 1) / 2 + (b - a)

/-- Modelled from the spec: the kernel cycompute_update (not in src/)
computes the raw update as the block contraction JHJ-inverse times JHR in
reduced parameter space, per slope component and correlation. -/
def cycompute_update (n_param : Nat) (jhr : TParams) (jhjinv : TJHJ) : TParams :=
  fun d t f a k c1 c2 =>
    ∑ j in Finset.range n_param,
      jhjinv d t f a (block_index n_param k j) c1 c2 * jhr d t f a j c1 c2

/-- Embedding of the damping step of implement_update: on even iteration
counters half the raw update is added, on odd ones the full update. -/
def damped_increment (iters : Nat) (p u : TParams) : TParams :=
  if iters % 2 = 0 then
    fun d t f a k c1 c2 => p d t f a k c1 c2 + (1 / 2 : ℚ) * u d t f a k c1 c2
  else
    fun d t f a k c1 c2 => p d t f a k c1 c2 + u d t f a k c1 c2

/-- Modelled from the spec: the base-class helper _interval_to_gainres (not
in src/) expands a per-interval quantity to gain resolution, every raw
sample taking the value of its owning interval. -/
def _interval_to_gainres (t_int f_int : Nat)
    (v : Nat → Nat → Nat → Nat → ℚ) : Nat → Nat → Nat → Nat → ℚ :=
  fun d t f a => v d (t / t_int) (f / f_int) a

/-- Modelled from the spec: the phase evaluated by the gain-construction
kernel at one sample -- the linear (for single-axis types) or bilinear
(for the tf-plane type) combination of the slope components of the owning
interval, with the normalized grids as independent variables. -/
def slope_phase (slope_type : String) (p : TParams) (ts fs : NArray)
    (t_int f_int : Nat) (d t f a c : Nat) : ℚ :=
  let ti := t / t_int
  let fi := f / f_int
  let tv := ts.data.getD t 0
  let fv := fs.data.getD f 0
  if slope_type = "tf-plane" then
    p d ti fi a 0 c c * fv + p d ti fi a 1 c c * tv + p d ti fi a 2 c c
  else if slope_type = "f-slope" then
    p d ti fi a 0 c c * fv + p d ti fi a 1 c c
  else if slope_type = "t-slope" then
    p d ti fi a 0 c c * tv + p d ti fi a 1 c c
  else 0

/-- Modelled from the spec: the kernel cyconstruct_gains (not in src/)
overwrites the gain tensor with unit-modulus diagonal gains obtained by
exponentiating the slope phase; the exponential itself is the carried
function cis. -/
def cyconstruct_gains (slope_type : String) (cis : ℚ → QC) (p : TParams)
    (ts fs : NArray) (t_int f_int : Nat) : TGains :=
  fun d t f a c1 c2 =>
    if c1 = c2 ∧ c1 < 2 then
      cis (slope_phase slope_type p ts fs t_int f_int d t f a c1)
    else QC.zero

/-- Embedding of PhaseSlopeGains.implement_update.  The posterior slope
error is the square root of the diagonal of JHJ-inverse restricted to the
correlation diagonal and selected by diag_idx; the gain error is the
square root of the sum of those variances over the slope components,
expanded to gain resolution and stored at both diagonal correlation slots
(other slots keep the previous value, zero when previously unset); the
damped update is applied, the solution restricted, and gains
reconstructed. -/
def implement_update (m : PhaseSlopeGains) (jhr : TParams) (jhjinv : TJHJ) :
    PhaseSlopeGains :=
  let diag := diag_idx m.n_param
  let var_slope : TPSE := fun d ti fi a j c => jhjinv d ti fi a (diag.getD j 0) c c
  let pse : TPSE := fun d ti fi a j c => ratSqrt (var_slope d ti fi a j c)
  let gerr := fun d ti fi a c =>
    ratSqrt (∑ j in Finset.range diag.length, var_slope d ti fi a j c)
  let oldpge : TGErr :=
    match m.posterior_gain_error with
    | some g => g
    | none => fun _ _ _ _ _ _ => 0
  let pge : TGErr := fun d t f a c1 c2 =>
    if c1 = 0 ∧ c2 = 0 then _interval_to_gainres m.t_int m.f_int (fun d t f a => gerr d t f a 0) d t f a
    else if c1 = 1 ∧ c2 = 1 then _interval_to_gainres m.t_int m.f_int (fun d t f a => gerr d t f a 1) d t f a
    else oldpge d t f a c1 c2
  let update := cycompute_update m.n_param jhr jhjinv
  let p1 := damped_increment m.iters m.slope_params update
  let p2 := restrict_solution m.ref_ant m.fix_directions p1
  { m with
    posterior_slope_error := some pse
    posterior_gain_error := some pge
    slope_params := p2
    gains := cyconstruct_gains m.slope_type m.cis p2 m.chunk_ts m.chunk_fs m.t_int m.f_int }

/-- Embedding of one assignment of import_solutions: the numpy write
slope_params[..., num, (0,1), (0,1)] = value touches exactly the two
diagonal correlation slots of component num. -/
def import_write (p : TParams) (num : Nat) (v : TSliceVal) : TParams :=
  fun d t f a k c1 c2 =>
    if k = num ∧ c1 = c2 ∧ c1 < 2 then v d t f a c1 else p d t f a k c1 c2

/-- Embedding of PhaseSlopeGains.import_solutions.  Every labelled
component present in the solution dict is written into the parameter
tensor; when at least one was present, gains are reconstructed from the
updated parameters, otherwise the gain tensor is left alone. -/
def import_solutions (m : PhaseSlopeGains) (soldict : Label → Option TSliceVal) :
    PhaseSlopeGains :=
  let step := fun (acc : TParams × Bool) (ln : Label × Nat) =>
    match soldict ln.1 with
    | some v => (import_write acc.1 ln.2 v, true)
    | none => acc
  let res := m.labels.foldl step (m.slope_params, false)
  if res.2 then
    { m with
      slope_params := res.1
      gains := cyconstruct_gains m.slope_type m.cis res.1 m.chunk_ts m.chunk_fs m.t_int m.f_int }
  else
    { m with slope_params := res.1 }

/-- Embedding of PhaseSlopeGains.export_solutions restricted to the
labelled slope entries.  For every label the diagonal-correlation slice of
the parameter tensor and the matching posterior-error slice are produced;
when the posterior slope error has never been computed the Python code
fails with a TypeError while building the first err entry, embedded here
as none. -/
def export_solutions (m : PhaseSlopeGains) :
    Option (List (Label × (TSliceVal × TSliceVal))) :=
  match m.posterior_slope_error with
  | none => none
  | some err =>
      some (m.labels.map (fun ln =>
        (ln.1,
         (fun d ti fi a c => m.slope_params d ti fi a ln.2 c c,
          fun d ti fi a c => err d ti fi a ln.2 c))))

/-- Modelled from the spec: the kernel cycompute_jh (not in src/) forms the
per-visibility partial-derivative tensor from the model visibilities and
the current diagonal gains. -/
def cycompute_jh (m : PhaseSlopeGains) (model : TModel) : TModel :=
  fun d mo t f p q c1 c2 => QC.mul (m.gains d t f p c1 c1) (model d mo t f p q c1 c2)

/-- Modelled from the spec: the kernel cycompute_tmp_jhr (not in src/)
contracts the gain Hermitian transpose, the partial-derivative tensor and
the residual into a per-(direction, time, freq, antenna) accumulator,
summing over models and the second antenna axis. -/
def cycompute_tmp_jhr (m : PhaseSlopeGains) (gh : TGains) (jh : TModel)
    (r : TVis) : Nat → Nat → Nat → Nat → Nat → Nat → QC :=
  fun d t f p c1 c2 =>
    qcSum m.n_mod (fun mo => qcSum m.n_ant (fun q =>
      QC.mul (gh d t f p c1 c1)
        (QC.mul (r mo t f p q c1 c2) (QC.conj (jh d mo t f p q c2 c2)))))

/-- Modelled from the spec: the slope-basis coefficient of a sample for one
slope component, determined by the slope type -- the normalized frequency
for a delay component, the normalized time for a rate component, and one
for the constant phase component. -/
def slope_basis (slope_type : String) (ts fs : NArray) (k t f : Nat) : ℚ :=
  if slope_type = "tf-plane" then
    if k = 0 then fs.data.getD f 0 else if k = 1 then ts.data.getD t 0
    else if k = 2 then 1 else 0
  else if slope_type = "f-slope" then
    if k = 0 then fs.data.getD f 0 else if k = 1 then 1 else 0
  else if slope_type = "t-slope" then
    if k = 0 then ts.data.getD t 0 else if k = 1 then 1 else 0
  else 0

/-- Modelled from the spec: the kernel cycompute_jhr (not in src/) bins the
imaginary-part accumulator into reduced parameter space in the adjoint
direction, summing every sample weighted by its slope-basis coefficient
into its owning interval and component. -/
def cycompute_jhr (m : PhaseSlopeGains)
    (tmp : Nat → Nat → Nat → Nat → Nat → Nat → ℚ) : TParams :=
  fun d ti fi a k c1 c2 =>
    ∑ t in Finset.range m.n_tim, ∑ f in Finset.range m.n_fre,
      if t / m.t_int = ti ∧ f / m.f_int = fi then
        slope_basis m.slope_type m.chunk_ts m.chunk_fs k t f * tmp d t f a c1 c2
      else 0

/-- Embedding of PhaseSlopeGains.compute_residual: observed data minus the
sum over directions of gain times model times gain Hermitian transpose,
with diagonal gains. -/
def compute_residual (m : PhaseSlopeGains) (obser : TVis) (model : TModel) : TVis :=
  fun mo t f p q c1 c2 =>
    QC.sub (obser mo t f p q c1 c2)
      (qcSum m.n_dir (fun d =>
        QC.mul (m.gains d t f p c1 c1)
          (QC.mul (model d mo t f p q c1 c2) (QC.conj (m.gains d t f q c2 c2)))))

/-- Embedding of the residual selection inside compute_js: the
multi-direction residual is computed exactly when more than one direction
is present, otherwise the observed array itself is the residual proxy. -/
def js_residual (m : PhaseSlopeGains) (obser : TVis) (model : TModel) : TVis :=
  if 1 < m.n_dir then compute_residual m obser model else obser

/-- Embedding of PhaseSlopeGains.compute_js: computes the JHR tensor in
reduced parameter space from the selected residual and returns it together
with the stored JHJ-inverse (it neither recomputes nor mutates it) and the
flag count zero. -/
def compute_js (m : PhaseSlopeGains) (obser : TVis) (model : TModel) :
    TParams × TJHJ × Nat :=
  let gh : TGains := fun d t f a c1 c2 => QC.conj (m.gains d t f a c2 c1)
  let jh := cycompute_jh m model
  let r := js_residual m obser model
  let tmp := cycompute_tmp_jhr m gh jh r
  let tmpim := fun d t f a c1 c2 => (tmp d t f a c1 c2).im
  (cycompute_jhr m tmpim, m.jhjinv, 0)

/-- Modelled from the spec: the kernel cycompute_tmp_jhj (not in src/)
forms the per-visibility real block from the model amplitudes, summing
the polarization-restricted outer product over the second antenna axis. -/
def cycompute_tmp_jhj (m : PhaseSlopeGains) (model : TModel) :
    Nat → Nat → Nat → Nat → Nat → Nat → Nat → QC :=
  fun d mo t f p c1 c2 =>
    qcSum m.n_ant (fun q =>
      QC.mul (model d mo t f p q c1 c1) (QC.conj (model d mo t f p q c2 c2)))

/-- Slope-component pairs backing each flattened block of the symmetric
normal-equations matrix: six blocks for the three-parameter type, three
blocks for the two-parameter types. -/
def block_pairs (n_param : Nat) : List (Nat × Nat) :=
  if n_param = 3 then [(0, 0), (0, 1), (0, 2), (1, 1), (1, 2), (2, 2)]
  else [(0, 0), (0, 1), (1, 1)]

/-- Modelled from the spec: the kernel cycompute_jhj (not in src/) bins the
real per-visibility blocks into reduced parameter space, one block per
slope-component pair, each sample weighted by the product of the two
slope-basis coefficients of the pair. -/
def cycompute_jhj (m : PhaseSlopeGains)
    (tmp : Nat → Nat → Nat → Nat → Nat → Nat → Nat → ℚ) : TJHJ :=
  fun d ti fi a b c1 c2 =>
    let kj := (block_pairs m.n_param).getD b (0, 0)
    ∑ mo in Finset.range m.n_mod, ∑ t in Finset.range m.n_tim,
      ∑ f in Finset.range m.n_fre,
        if t / m.t_int = ti ∧ f / m.f_int = fi then
          slope_basis m.slope_type m.chunk_ts m.chunk_fs kj.1 t f *
            slope_basis m.slope_type m.chunk_ts m.chunk_fs kj.2 t f *
            tmp d mo t f a c1 c2
        else 0

/-- Modelled from the spec: the kernel cycompute_jhjinv (not in src/)
inverts each small symmetric block of the normal-equations matrix by the
cofactor formula, under a numerical floor eps on the determinant; a block
whose determinant falls under the floor is marked as zero. -/
def cycompute_jhjinv (n_param : Nat) (jhj : TJHJ) (eps : ℚ) : TJHJ :=
  fun d ti fi a b c1 c2 =>
    let e := fun k j => jhj d ti fi a (block_index n_param k j) c1 c2
    if n_param = 2 then
      let det := e 0 0 * e 1 1 - e 0 1 * e 0 1
      if |det| < eps then 0
      else
        (if b = 0 then e 1 1 else if b = 1 then -(e 0 1)
         else if b = 2 then e 0 0 else 0) / det
    else
      let det := e 0 0 * (e 1 1 * e 2 2 - e 1 2 * e 1 2) -
        e 0 1 * (e 0 1 * e 2 2 - e 1 2 * e 0 2) +
        e 0 2 * (e 0 1 * e 1 2 - e 1 1 * e 0 2)
      if |det| < eps then 0
      else
        (if b = 0 then e 1 1 * e 2 2 - e 1 2 * e 1 2
         else if b = 1 then e 0 2 * e 1 2 - e 0 1 * e 2 2
         else if b = 2 then e 0 1 * e 1 2 - e 0 2 * e 1 1
         else if b = 3 then e 0 0 * e 2 2 - e 0 2 * e 0 2
         else if b = 4 then e 0 2 * e 0 1 - e 0 0 * e 1 2
         else if b = 5 then e 0 0 * e 1 1 - e 0 1 * e 0 1
         else 0) / det

/-- Embedding of PhaseSlopeGains.precompute_attributes: computes the
JHJ-inverse once from the model tensor and grids and stores it on the
machine; no other machine state is touched.  The flags and inverse
channel-variance arguments feed only the base-class call, which is not
under src/, and are therefore not carried. -/
def precompute_attributes (m : PhaseSlopeGains) (model : TModel) :
    PhaseSlopeGains :=
  let tmp := cycompute_tmp_jhj m model
  let jhj := cycompute_jhj m (fun d mo t f p c1 c2 => (tmp d mo t f p c1 c2).re)
  { m with jhjinv := cycompute_jhjinv m.n_param jhj m.eps }

/-- Modelled from the spec: the kernel cycompute_corrected (not in src/)
applies the given left and right gain factors around each visibility,
with diagonal gains taken at direction zero. -/
def cycompute_corrected (vis : TVis) (g gh : TGains) : TVis :=
  fun mo t f p q c1 c2 =>
    QC.mul (g 0 t f p c1 c1) (QC.mul (vis mo t f p q c1 c2) (gh 0 t f q c2 c2))

/-- Embedding of PhaseSlopeGains.apply_inv_gains: the left factor is the
complex conjugate of the gain tensor and the right factor the conjugate of
that; the returned flag count is always zero and the function is total --
no error path exists. -/
def apply_inv_gains (gains : TGains) (resid : TVis) : TVis × Nat :=
  (cycompute_corrected resid
     (fun d t f a c1 c2 => QC.conj (gains d t f a c1 c2))
     (fun d t f a c1 c2 => QC.conj (QC.conj (gains d t f a c1 c2))), 0)

/-- Error raised by the parameter database: a failed Python assert, or the
ValueError raised on a shape mismatch in add_slice. -/
inductive DBError
  | assertFailed
  | shapeMismatch
deriving DecidableEq

/-- Operating mode of the parameter database. -/
inductive DBMode
  | create
  | load
  | closed
deriving DecidableEq

/-- Embedding of a numpy array handed to add_slice: its shape, and a flat
list of rational entries. -/
structure NDArray where
  shape : List Nat
  flat : List ℚ
deriving DecidableEq

/-- Embedding of a Python slice object as used by the database. -/
structure DBSlice where
  start : Nat
  stop : Nat
deriving DecidableEq

/-- Embedding of a parameter description record written by define_param. -/
structure ParmDesc where
  shape : List Nat
  dtype : DType
  axis_labels : List String
  grids : List String
  empty : ℚ
deriving DecidableEq

/-- One record of the append-only database file. -/
inductive DBEntry
  | parmdesc (name : String) (desc : ParmDesc)
  | sliceEntry (name : String) (array : NDArray) (slices : List (String × DBSlice))
deriving DecidableEq

/-- Embedding of SimpleParameterDB state: the mode, the name-keyed
parameter descriptions (cons shadows earlier bindings, as dict assignment
does for lookup), and the append-only record log standing for the file. -/
structure SimpleParameterDB where
  filename : String
  mode : DBMode
  parmdescs : List (String × ParmDesc)
  log : List DBEntry
deriving DecidableEq

/-- Embedding of SimpleParameterDB.create: a fresh database in create mode
with no parameters and an empty file. -/
def SimpleParameterDB.create (filename : String) : SimpleParameterDB :=
  { filename := filename, mode := DBMode.create, parmdescs := [], log := [] }

/-- Embedding of SimpleParameterDB.define_param.  The asserts of the source
are embedded as eager error returns: the mode must be create, the shape
must have exactly one extent per axis label, and every grid axis must be a
known axis; on success the description is recorded and appended to the
log. -/
def SimpleParameterDB.define_param (db : SimpleParameterDB) (name : String)
    (shape : List Nat) (dtype : DType) (axis_labels : List String)
    (grids : List String) (empty : ℚ) :
    Except DBError SimpleParameterDB :=
  if db.mode ≠ DBMode.create then Except.error DBError.assertFailed
  else if shape.length ≠ axis_labels.length then Except.error DBError.assertFailed
  else if ¬ (grids.all (fun g => axis_labels.contains g)) then
    Except.error DBError.assertFailed
  else
    let desc : ParmDesc :=
      { shape := shape, dtype := dtype, axis_labels := axis_labels,
        grids := grids, empty := empty }
    Except.ok { db with
      parmdescs := (name, desc) :: db.parmdescs
      log := db.log ++ [DBEntry.parmdesc name desc] }

/-- Embedding of SimpleParameterDB.add_slice.  The mode must be create and
the parameter must have been defined; every sliced axis must be a known
axis; and along every axis that is not sliced the array extent must equal
the pre-defined shape, the first violation raising a ValueError before
anything is written.  Only when all checks pass is the slice appended to
the log. -/
def SimpleParameterDB.add_slice (db : SimpleParameterDB) (name : String)
    (array : NDArray) (slices : List (String × DBSlice)) :
    Except DBError SimpleParameterDB :=
  if db.mode ≠ DBMode.create then Except.error DBError.assertFailed
  else
    match List.lookup name db.parmdescs with
    | none => Except.error DBError.assertFailed
    | some desc =>
      if ¬ (slices.all (fun s => desc.axis_labels.contains s.1)) then
        Except.error DBError.assertFailed
      else if (List.range desc.axis_labels.length).any (fun i =>
          !((slices.map Prod.fst).contains (desc.axis_labels.getD i "")) &&
          (array.shape.getD i 0 != desc.shape.getD i 0)) then
        Except.error DBError.shapeMismatch
      else
        Except.ok { db with log := db.log ++ [DBEntry.sliceEntry name array slices] }

/-- Concrete machine fixture used by witnesses and counterexamples below:
a one-antenna, one-sample chunk with unit intervals and the requested
slope type, direction count, label map and posterior slope error. -/
def testMachine (slope_type : String) (n_param ndir : Nat)
    (labels : List (Label × Nat)) (pse : Option TPSE) : PhaseSlopeGains :=
  { slope_type := slope_type
    n_dir := ndir
    n_mod := 1
    n_tim := 1
    n_fre := 1
    n_timint := 1
    n_freint := 1
    n_ant := 1
    t_int := 1
    f_int := 1
    n_param := n_param
    labels := labels
    slope_params := fun _ _ _ _ _ _ _ => 0
    posterior_slope_error := pse
    posterior_gain_error := none
    gains := fun _ _ _ _ _ _ => QC.zero
    chunk_ts := ⟨[0], DType.double⟩
    chunk_fs := ⟨[0], DType.double⟩
    ref_ant := none
    fix_directions := []
    jhjinv := fun _ _ _ _ _ _ _ => 0
    eps := 0
    iters := 0
    cis := fun _ => ⟨1, 0⟩ }

/-- Fixture: an f-slope machine with a single direction. -/
def mFslope : PhaseSlopeGains :=
  testMachine "f-slope" 2 1 [(Label.phase, 1), (Label.delay, 0)] none

/-- Fixture: an f-slope machine with two directions. -/
def mDir2 : PhaseSlopeGains :=
  testMachine "f-slope" 2 2 [(Label.phase, 1), (Label.delay, 0)] none

/-- Fixture: the all-zero posterior slope error tensor. -/
def zeroPSE : TPSE := fun _ _ _ _ _ _ => 0

/-- Fixture: a tf-plane machine whose posterior slope error is present. -/
def mTFp : PhaseSlopeGains :=
  testMachine "tf-plane" 3 1 [(Label.phase, 2), (Label.delay, 0), (Label.rate, 1)]
    (some zeroPSE)

/-- Fixture: a constant parameter tensor. -/
def constP : TParams := fun _ _ _ _ _ _ _ => 3

/-- Fixture: a constant raw-update tensor. -/
def constU : TParams := fun _ _ _ _ _ _ _ => 4

/-- Fixture: the constant-two JHJ-inverse tensor. -/
def jhjinvTwo : TJHJ := fun _ _ _ _ _ _ _ => 2

/-- Fixture: the all-zero JHR tensor. -/
def jhrZero : TParams := fun _ _ _ _ _ _ _ => 0

/-- Fixture: the all-zero gain-error tensor, used as a getD default. -/
def zeroTGErr : TGErr := fun _ _ _ _ _ _ => 0

/-- Fixture: the all-zero model tensor. -/
def modelZero : TModel := fun _ _ _ _ _ _ _ _ => QC.zero

/-- Fixture: the all-zero observed tensor. -/
def obserZero : TVis := fun _ _ _ _ _ _ _ => QC.zero

/-- Solution dict holding only a phase entry. -/
def phaseOnlyDict (v : TSliceVal) : Label → Option TSliceVal :=
  fun l => if l = Label.phase then some v else none

/-- Fixture: the constant-seven imported phase slice. -/
def vSeven : TSliceVal := fun _ _ _ _ _ => 7

/-- Fixture: a parameter description with axes ant and time. -/
def descG : ParmDesc :=
  { shape := [3, 10], dtype := DType.single,
    axis_labels := ["ant", "time"], grids := [], empty := 0 }

/-- Fixture: a create-mode database holding the single parameter G. -/
def dbFix : SimpleParameterDB :=
  { filename := "test.db", mode := DBMode.create,
    parmdescs := [("G", descG)], log := [] }

/-- Importing solutions never touches the posterior slope error. -/
theorem import_solutions_posterior (m : PhaseSlopeGains)
    (sd : Label → Option TSliceVal) :
    (import_solutions m sd).posterior_slope_error = m.posterior_slope_error := by
  simp only [import_solutions]
  split <;> rfl

/-- Exporting solutions fails (returns none) whenever the posterior slope
error has never been computed. -/
theorem export_solutions_none (m : PhaseSlopeGains)
    (h : m.posterior_slope_error = none) : export_solutions m = none := by
  simp only [export_solutions, h]

/-- Claim C1: after restrict_solution, when a reference antenna is
designated, the slope parameters of the reference antenna are exactly zero
for every (direction, time interval, freq interval, slope component,
correlation), and every direction of the fixed-direction set has its whole
slope-parameter sub-tensor exactly zero, both constraints holding on the
same output tensor. -/
theorem c1_restrict_solution_pins_and_fixes (ref_ant : Option Nat)
    (fix_directions : List Nat) (p : TParams) (r : Nat)
    (href : ref_ant = some r) :
    (∀ d t f k c1 c2,
      restrict_solution ref_ant fix_directions p d t f r k c1 c2 = 0) ∧
    (∀ d, d ∈ fix_directions → ∀ t f a k c1 c2,
      restrict_solution ref_ant fix_directions p d t f a k c1 c2 = 0) := by
  subst href
  constructor
  · intro d t f k c1 c2
    simp only [restrict_solution]
    split
    · rfl
    · simp
  · intro d hd t f a k c1 c2
    simp only [restrict_solution]
    rw [if_pos hd]

/-- Witness for C1 at a concrete tensor, reference antenna 1 and fixed
direction 0. -/
theorem c1_restrict_solution_pins_and_fixes_witness :
    restrict_solution (some 1) [0] constP 2 0 0 1 0 0 0 = 0 ∧
    restrict_solution (some 1) [0] constP 0 0 0 5 0 0 0 = 0 :=
  ⟨(c1_restrict_solution_pins_and_fixes (some 1) [0] constP 1 rfl).1 2 0 0 0 0 0,
   (c1_restrict_solution_pins_and_fixes (some 1) [0] constP 1 rfl).2 0 (by decide)
     0 0 5 0 0 0⟩

/-- Claim C2: implement_update applies the damped increment followed by the
restriction; the increment added to the parameter tensor is exactly half
the raw update on even iteration counters and exactly the full raw update
on odd ones, so the delta of iteration 0 is exactly half the delta of
iteration 1 for the same inputs. -/
theorem c2_damping_alternation (m : PhaseSlopeGains) (jhr : TParams)
    (jhjinv : TJHJ) (p u : TParams) (i d t f a k c1 c2 : Nat) :
    (implement_update m jhr jhjinv).slope_params
      = restrict_solution m.ref_ant m.fix_directions
          (damped_increment m.iters m.slope_params
            (cycompute_update m.n_param jhr jhjinv)) ∧
    (i % 2 = 0 → damped_increment i p u d t f a k c1 c2 - p d t f a k c1 c2
      = (1 / 2 : ℚ) * u d t f a k c1 c2) ∧
    (i % 2 = 1 → damped_increment i p u d t f a k c1 c2 - p d t f a k c1 c2
      = u d t f a k c1 c2) ∧
    (damped_increment 0 p u d t f a k c1 c2 - p d t f a k c1 c2
      = (1 / 2 : ℚ) * (damped_increment 1 p u d t f a k c1 c2 - p d t f a k c1 c2)) := by
  refine ⟨rfl, ?_, ?_, ?_⟩
  · intro h
    simp [damped_increment, h]
  · intro h
    simp [damped_increment, h]
  · simp [damped_increment]

/-- Witness for C2 at constant tensors and iteration counters 0 and 1. -/
theorem c2_damping_alternation_witness :
    (damped_increment 0 constP constU 0 0 0 0 0 0 0 - constP 0 0 0 0 0 0 0
      = (1 / 2 : ℚ) * constU 0 0 0 0 0 0 0) ∧
    (damped_increment 1 constP constU 0 0 0 0 0 0 0 - constP 0 0 0 0 0 0 0
      = constU 0 0 0 0 0 0 0) :=
  ⟨(c2_damping_alternation mFslope jhrZero jhjinvTwo constP constU 0 0 0 0 0 0 0 0).2.1 rfl,
   (c2_damping_alternation mFslope jhrZero jhjinvTwo constP constU 1 0 0 0 0 0 0 0).2.2.1 rfl⟩

/-- Claim C3 (amended): the posterior slope-parameter variance is extracted
from the correlation diagonal of JHJ-inverse at the block positions (0,2)
for two parameters and (0,3,5) for three, the posterior slope error being
its square root; and the value stored at both diagonal correlation slots of
the gain-error tensor is the square root of the sum of the slope-parameter
variances of the components sharing that polarization (the gain-phase
standard error, not the variance itself). -/
theorem c3_posterior_error_layout (m : PhaseSlopeGains) (jhr : TParams)
    (jhjinv : TJHJ) :
    diag_idx 2 = [0, 2] ∧ diag_idx 3 = [0, 3, 5] ∧
    ∃ pse pge,
      (implement_update m jhr jhjinv).posterior_slope_error = some pse ∧
      (implement_update m jhr jhjinv).posterior_gain_error = some pge ∧
      (∀ d ti fi a j c, pse d ti fi a j c
        = ratSqrt (jhjinv d ti fi a ((diag_idx m.n_param).getD j 0) c c)) ∧
      (∀ d t f a,
        pge d t f a 0 0
          = ratSqrt (∑ j in Finset.range (diag_idx m.n_param).length,
              jhjinv d (t / m.t_int) (f / m.f_int) a ((diag_idx m.n_param).getD j 0) 0 0) ∧
        pge d t f a 1 1
          = ratSqrt (∑ j in Finset.range (diag_idx m.n_param).length,
              jhjinv d (t / m.t_int) (f / m.f_int) a ((diag_idx m.n_param).getD j 0) 1 1)) := by
  refine ⟨rfl, rfl, _, _, rfl, rfl, fun d ti fi a j c => rfl, fun d t f a => ⟨?_, ?_⟩⟩
  · simp [implement_update, _interval_to_gainres]
  · simp [implement_update, _interval_to_gainres]

/-- The embedded square root is exact at four. -/
theorem ratSqrt_four : ratSqrt 4 = 2 := by
  rw [ratSqrt, if_pos (by norm_num)]
  rw [show (4 : ℚ).num = 4 from rfl, show (4 : ℚ).den = 1 from rfl]
  rw [show Int.toNat 4 = 2 * 2 from rfl, Nat.sqrt_eq, Nat.sqrt_one]
  norm_num

/-- The stored gain error at the (0,0) correlation slot is the square root
of the summed slope-parameter variances of that polarization. -/
theorem implement_update_pge_zero (m : PhaseSlopeGains) (jhr : TParams)
    (jhjinv : TJHJ) (d t f a : Nat) :
    ((implement_update m jhr jhjinv).posterior_gain_error.getD zeroTGErr)
        d t f a 0 0
      = ratSqrt (∑ j in Finset.range (diag_idx m.n_param).length,
          jhjinv d (t / m.t_int) (f / m.f_int) a
            ((diag_idx m.n_param).getD j 0) 0 0) := by
  simp [implement_update, _interval_to_gainres]

/-- Counterexample for C3 as stated: with every JHJ-inverse entry equal to
two on an f-slope machine, the value stored at the (0,0) correlation slot
of the gain-error tensor is 2, while the sum of the slope-parameter
variances sharing that polarization is 4, so the stored value is not the
posterior gain-phase variance. -/
theorem c3_posterior_error_counterexample :
    ((implement_update mFslope jhrZero jhjinvTwo).posterior_gain_error.getD
        zeroTGErr) 0 0 0 0 0 0 = 2 ∧
    (∑ j in Finset.range (diag_idx 2).length,
        jhjinvTwo 0 0 0 0 ((diag_idx 2).getD j 0) 0 0) = 4 ∧
    ((implement_update mFslope jhrZero jhjinvTwo).posterior_gain_error.getD
        zeroTGErr) 0 0 0 0 0 0 ≠
      (∑ j in Finset.range (diag_idx 2).length,
        jhjinvTwo 0 0 0 0 ((diag_idx 2).getD j 0) 0 0) := by
  have hsum : (∑ j in Finset.range (diag_idx 2).length,
      jhjinvTwo 0 0 0 0 ((diag_idx 2).getD j 0) 0 0) = 4 := by
    norm_num [diag_idx, jhjinvTwo, Finset.sum_range_succ]
  have hlhs : ((implement_update mFslope jhrZero jhjinvTwo).posterior_gain_error.getD
      zeroTGErr) 0 0 0 0 0 0 = 2 := by
    rw [implement_update_pge_zero]
    rw [show mFslope.n_param = 2 from rfl]
    have h4 : (∑ j in Finset.range (diag_idx 2).length,
        jhjinvTwo 0 (0 / mFslope.t_int) (0 / mFslope.f_int) 0
          ((diag_idx 2).getD j 0) 0 0) = 4 := by
      norm_num [diag_idx, jhjinvTwo, Finset.sum_range_succ]
    rw [h4, ratSqrt_four]
  refine ⟨hlhs, hsum, ?_⟩
  rw [hlhs, hsum]
  norm_num

/-- Claim C4: compute_js, run after precompute_attributes, returns the
freshly binned JHR tensor, the stored JHJ-inverse exactly as precomputed
(not recomputed by the call), and the flag count zero; the multi-direction
residual is used as the residual term exactly when more than one direction
is present, the observed array itself otherwise. -/
theorem c4_compute_js_contract (m : PhaseSlopeGains) (model : TModel)
    (obser : TVis) :
    (compute_js (precompute_attributes m model) obser model).2.2 = 0 ∧
    (compute_js (precompute_attributes m model) obser model).2.1
      = (precompute_attributes m model).jhjinv ∧
    (precompute_attributes m model).jhjinv
      = cycompute_jhjinv m.n_param
          (cycompute_jhj m (fun d mo t f p c1 c2 =>
            (cycompute_tmp_jhj m model d mo t f p c1 c2).re)) m.eps ∧
    (compute_js (precompute_attributes m model) obser model).1
      = cycompute_jhr (precompute_attributes m model)
          (fun d t f a c1 c2 =>
            (cycompute_tmp_jhr (precompute_attributes m model)
              (fun d t f a c1 c2 =>
                QC.conj ((precompute_attributes m model).gains d t f a c2 c1))
              (cycompute_jh (precompute_attributes m model) model)
              (js_residual (precompute_attributes m model) obser model)
              d t f a c1 c2).im) ∧
    (1 < m.n_dir →
      js_residual (precompute_attributes m model) obser model
        = compute_residual (precompute_attributes m model) obser model) ∧
    (m.n_dir ≤ 1 →
      js_residual (precompute_attributes m model) obser model = obser) := by
  refine ⟨rfl, rfl, rfl, rfl, ?_, ?_⟩
  · intro h
    have hn : 1 < (precompute_attributes m model).n_dir := h
    simp [js_residual, hn]
  · intro h
    have hn : ¬ 1 < (precompute_attributes m model).n_dir := by
      have he : (precompute_attributes m model).n_dir = m.n_dir := rfl
      omega
    simp [js_residual, hn]

/-- Witness for C4: a two-direction machine takes the residual branch and a
single-direction machine uses the observed array directly. -/
theorem c4_compute_js_contract_witness :
    js_residual (precompute_attributes mDir2 modelZero) obserZero modelZero
      = compute_residual (precompute_attributes mDir2 modelZero) obserZero modelZero ∧
    js_residual (precompute_attributes mFslope modelZero) obserZero modelZero
      = obserZero :=
  ⟨(c4_compute_js_contract mDir2 modelZero obserZero).2.2.2.2.1 (by decide),
   (c4_compute_js_contract mFslope modelZero obserZero).2.2.2.2.2 (by decide)⟩

/-- Claim C5: on a machine whose label set has phase, delay and rate,
importing a solution dict holding only a phase entry writes its values
into the diagonal correlation slots of the phase component, leaves the
delay and rate components at their pre-import values, reconstructs the
gains from the updated parameters (which an import with no listed label
does not do), and a subsequent export returns the imported phase values
unchanged. -/
theorem c5_partial_import_roundtrip (m : PhaseSlopeGains) (v : TSliceVal)
    (e : TPSE)
    (hlab : m.labels = [(Label.phase, 2), (Label.delay, 0), (Label.rate, 1)])
    (hpse : m.posterior_slope_error = some e) :
    (∀ d t f a c1 c2, c1 = c2 → c1 < 2 →
      (import_solutions m (phaseOnlyDict v)).slope_params d t f a 2 c1 c2
        = v d t f a c1) ∧
    (∀ d t f a k c1 c2, k = 0 ∨ k = 1 →
      (import_solutions m (phaseOnlyDict v)).slope_params d t f a k c1 c2
        = m.slope_params d t f a k c1 c2) ∧
    ((import_solutions m (phaseOnlyDict v)).gains
      = cyconstruct_gains m.slope_type m.cis
          (import_solutions m (phaseOnlyDict v)).slope_params
          m.chunk_ts m.chunk_fs m.t_int m.f_int) ∧
    (∀ sd2 : Label → Option TSliceVal, sd2 Label.phase = none →
      sd2 Label.delay = none → sd2 Label.rate = none →
      (import_solutions m sd2).gains = m.gains) ∧
    (∃ sols, export_solutions (import_solutions m (phaseOnlyDict v)) = some sols ∧
      ∃ ve : TSliceVal × TSliceVal, List.lookup Label.phase sols = some ve ∧
        ∀ d t f a c, c < 2 → ve.1 d t f a c = v d t f a c) := by
  have hfold : import_solutions m (phaseOnlyDict v)
      = { m with
          slope_params := import_write m.slope_params 2 v
          gains := cyconstruct_gains m.slope_type m.cis
            (import_write m.slope_params 2 v)
            m.chunk_ts m.chunk_fs m.t_int m.f_int } := by
    simp only [import_solutions, hlab, phaseOnlyDict]
    rfl
  have hp : (import_solutions m (phaseOnlyDict v)).posterior_slope_error
      = some e := by
    rw [hfold]
    exact hpse
  have hl : (import_solutions m (phaseOnlyDict v)).labels
      = [(Label.phase, 2), (Label.delay, 0), (Label.rate, 1)] := by
    rw [hfold]
    exact hlab
  refine ⟨?_, ?_, ?_, ?_, ?_⟩
  · intro d t f a c1 c2 hc hlt
    subst hc
    rw [hfold]
    simp [import_write, hlt]
  · intro d t f a k c1 c2 hk
    rw [hfold]
    rcases hk with rfl | rfl <;> simp [import_write]
  · rw [hfold]
  · intro sd2 h1 h2 h3
    simp only [import_solutions, hlab, List.foldl_cons, List.foldl_nil, h1, h2, h3]
    rfl
  · refine ⟨[(Label.phase,
        ((fun d ti fi a c =>
            (import_solutions m (phaseOnlyDict v)).slope_params d ti fi a 2 c c),
         (fun d ti fi a c => e d ti fi a 2 c))),
      (Label.delay,
        ((fun d ti fi a c =>
            (import_solutions m (phaseOnlyDict v)).slope_params d ti fi a 0 c c),
         (fun d ti fi a c => e d ti fi a 0 c))),
      (Label.rate,
        ((fun d ti fi a c =>
            (import_solutions m (phaseOnlyDict v)).slope_params d ti fi a 1 c c),
         (fun d ti fi a c => e d ti fi a 1 c)))], ?_,
      ((fun d ti fi a c =>
          (import_solutions m (phaseOnlyDict v)).slope_params d ti fi a 2 c c),
       (fun d ti fi a c => e d ti fi a 2 c)), ?_, ?_⟩
    · simp only [export_solutions, hp, hl, List.map_cons, List.map_nil]
    · rfl
    · intro d t f a c hc
      rw [hfold]
      simp [import_write, hc]

/-- Witness for C5: importing a constant phase slice of seven into the
tf-plane fixture writes it into the phase component and leaves the delay
component untouched. -/
theorem c5_partial_import_roundtrip_witness :
    (import_solutions mTFp (phaseOnlyDict vSeven)).slope_params 0 0 0 0 2 0 0
      = vSeven 0 0 0 0 0 ∧
    (import_solutions mTFp (phaseOnlyDict vSeven)).slope_params 0 0 0 0 0 0 0
      = mTFp.slope_params 0 0 0 0 0 0 0 :=
  ⟨(c5_partial_import_roundtrip mTFp vSeven zeroPSE rfl rfl).1 0 0 0 0 0 0 rfl
      (by decide),
   (c5_partial_import_roundtrip mTFp vSeven zeroPSE rfl rfl).2.1 0 0 0 0 0 0 0
      (Or.inl rfl)⟩

/-- A mapped nonempty list has the image of the last element as its last
element, for any defaults. -/
theorem getLastD_map_ne_nil (f : ℚ → ℚ) :
    ∀ (l : List ℚ), l ≠ [] → ∀ d d', (l.map f).getLastD d = f (l.getLastD d')
  | [], h, _, _ => absurd rfl h
  | [_], _, _, _ => rfl
  | a :: b :: t, _, d, d' => by
      rw [List.map_cons, List.getLastD_cons,
        getLastD_map_ne_nil f (b :: t) (by simp) (f a) a,
        List.getLastD_cons, List.getLastD_cons, List.getLastD_cons]

/-- The last element of a nonempty list belongs to it, for any default. -/
theorem getLastD_mem : ∀ (l : List ℚ), l ≠ [] → ∀ d, l.getLastD d ∈ l
  | [], h, _ => absurd rfl h
  | [a], _, d => by simp
  | a :: b :: t, _, _ => by
      rw [List.getLastD_cons]
      exact List.mem_cons_of_mem a (getLastD_mem (b :: t) (by simp) a)

/-- Claim C6: on a strictly increasing coordinate array of length at least
two the normalizer returns a same-length array carrying the requested
dtype, every element mapped linearly by (v - x0) / (xl - x0), with first
element exactly 0 and last element exactly 1; a one-element input yields
the single-zero array with the requested dtype; an empty input is returned
unchanged. -/
theorem c6_normalize_contract (x : NArray) (dt : DType) :
    (x.data.Pairwise (· < ·) → 2 ≤ x.data.length →
      (_normalize x dt).data.length = x.data.length ∧
      (_normalize x dt).dtype = dt ∧
      (∀ i : Nat, (_normalize x dt).data[i]?
        = (x.data[i]?).map
            (fun v => (v - x.data.headD 0) / (x.data.getLastD 0 - x.data.headD 0))) ∧
      (_normalize x dt).data.headD 0 = 0 ∧
      (_normalize x dt).data.getLastD 0 = 1) ∧
    (x.data.length = 1 → _normalize x dt = { data := [0], dtype := dt }) ∧
    (x.data = [] → _normalize x dt = x) := by
  obtain ⟨l, dx⟩ := x
  refine ⟨?_, ?_, ?_⟩
  · intro hp h2
    have hlt : 1 < l.length := h2
    have hn : _normalize ⟨l, dx⟩ dt
        = { data := l.map (fun v => (v - l.headD 0) / (l.getLastD 0 - l.headD 0)),
            dtype := dt } := by
      rw [_normalize, if_pos hlt]
    rcases l with _ | ⟨a, t⟩
    · simp at h2
    · have hne : t ≠ [] := by
        intro h
        rw [h] at h2
        simp at h2
      have hlta : a < (a :: t).getLastD 0 := by
        rw [List.getLastD_cons]
        exact (List.pairwise_cons.1 hp).1 _ (getLastD_mem t hne a)
      have hdz : (a :: t).getLastD 0 - (a :: t).headD 0 ≠ 0 := by
        simp only [List.headD_cons]
        rw [List.getLastD_cons] at hlta ⊢
        exact sub_ne_zero.2 (ne_of_gt hlta)
      refine ⟨?_, ?_, ?_, ?_, ?_⟩
      · rw [hn]
        simp
      · rw [hn]
      · intro i
        rw [hn]
        exact List.getElem?_map _ (a :: t) i
      · rw [hn]
        simp only [List.map_cons, List.headD_cons]
        simp
      · rw [hn]
        rw [getLastD_map_ne_nil _ (a :: t) (by simp) 0 0]
        exact div_self hdz
  · intro h1
    rcases l with _ | ⟨a, t⟩
    · simp at h1
    · rcases t with _ | ⟨b, t2⟩
      · rfl
      · simp at h1
  · intro h0
    have hl : l = [] := h0
    subst hl
    rfl

/-- Witness for C6 at the concrete arrays [0, 2, 3], [5] and []. -/
theorem c6_normalize_contract_witness :
    (_normalize ⟨[0, 2, 3], DType.double⟩ DType.single).data.headD 0 = 0 ∧
    (_normalize ⟨[0, 2, 3], DType.double⟩ DType.single).data.getLastD 0 = 1 ∧
    (_normalize ⟨[0, 2, 3], DType.double⟩ DType.single).dtype = DType.single ∧
    _normalize ⟨[5], DType.double⟩ DType.single
      = { data := [0], dtype := DType.single } ∧
    _normalize ⟨[], DType.double⟩ DType.single = ⟨[], DType.double⟩ :=
  ⟨((c6_normalize_contract ⟨[0, 2, 3], DType.double⟩ DType.single).1
      (by norm_num [List.pairwise_cons]) (by norm_num)).2.2.2.1,
   ((c6_normalize_contract ⟨[0, 2, 3], DType.double⟩ DType.single).1
      (by norm_num [List.pairwise_cons]) (by norm_num)).2.2.2.2,
   ((c6_normalize_contract ⟨[0, 2, 3], DType.double⟩ DType.single).1
      (by norm_num [List.pairwise_cons]) (by norm_num)).2.1,
   (c6_normalize_contract ⟨[5], DType.double⟩ DType.single).2.1 (by norm_num),
   (c6_normalize_contract ⟨[], DType.double⟩ DType.single).2.2 rfl⟩

/-- Claim C7: constructing the machine succeeds for each of the three
recognized type option values and fails with the unknown-type error for
every other value, the error branch carrying no machine state. -/
theorem c7_init_type_check (ndir nmod ntim nfre nant tint fint : Nat)
    (cts cfs : NArray) (ftype : DType) (ra : Option Nat) (fd : List Nat)
    (eps : ℚ) (cis : ℚ → QC) (t : String) :
    (t = "tf-plane" ∨ t = "f-slope" ∨ t = "t-slope" →
      ∃ mach, PhaseSlopeGains.init ndir nmod ntim nfre nant tint fint cts cfs
        ftype ra fd eps cis t = Except.ok mach) ∧
    (t ≠ "tf-plane" → t ≠ "f-slope" → t ≠ "t-slope" →
      PhaseSlopeGains.init ndir nmod ntim nfre nant tint fint cts cfs
        ftype ra fd eps cis t = Except.error InitError.unknownTypeSetting) := by
  constructor
  · rintro (rfl | rfl | rfl) <;> exact ⟨_, rfl⟩
  · intro h1 h2 h3
    simp only [PhaseSlopeGains.init, if_neg h1, if_neg h2, if_neg h3]

/-- Witness for C7 at a recognized and an unrecognized type value. -/
theorem c7_init_type_check_witness :
    (∃ mach, PhaseSlopeGains.init 1 1 1 1 1 1 1 ⟨[0], DType.double⟩
        ⟨[0], DType.double⟩ DType.double none [] 0 (fun _ => ⟨1, 0⟩)
        "tf-plane" = Except.ok mach) ∧
    PhaseSlopeGains.init 1 1 1 1 1 1 1 ⟨[0], DType.double⟩
        ⟨[0], DType.double⟩ DType.double none [] 0 (fun _ => ⟨1, 0⟩)
        "bogus" = Except.error InitError.unknownTypeSetting :=
  ⟨(c7_init_type_check 1 1 1 1 1 1 1 ⟨[0], DType.double⟩ ⟨[0], DType.double⟩
      DType.double none [] 0 (fun _ => ⟨1, 0⟩) "tf-plane").1 (Or.inl rfl),
   (c7_init_type_check 1 1 1 1 1 1 1 ⟨[0], DType.double⟩ ⟨[0], DType.double⟩
      DType.double none [] 0 (fun _ => ⟨1, 0⟩) "bogus").2
      (by decide) (by decide) (by decide)⟩

/-- Claim C8: apply_inv_gains is total, always returns the additional flag
count zero, and the inverse gain it applies is the element-wise complex
conjugate of the gain tensor (the right factor being the conjugate of the
conjugate, that is, the gain tensor itself). -/
theorem c8_apply_inv_gains_contract (gains : TGains) (resid : TVis) :
    (apply_inv_gains gains resid).2 = 0 ∧
    (apply_inv_gains gains resid).1
      = cycompute_corrected resid
          (fun d t f a c1 c2 => QC.conj (gains d t f a c1 c2)) gains := by
  refine ⟨rfl, ?_⟩
  funext mo t f p q c1 c2
  simp only [apply_inv_gains, cycompute_corrected, QC.conj_conj]

/-- Claim C9: in create mode, add_slice raises rather than writes whenever
the array extent on some axis not named in the slices dict differs from
the pre-defined shape; add_slice on a name never defined raises; and
define_param with a shape whose length differs from its axis-label count
raises, each rejection carrying no updated database state. -/
theorem c9_db_shape_checks (db : SimpleParameterDB) (name : String)
    (arr : NDArray) (slices : List (String × DBSlice)) (desc : ParmDesc)
    (shape2 : List Nat) (labels2 : List String) (dt : DType)
    (grids2 : List String) (emp : ℚ) :
    (List.lookup name db.parmdescs = some desc →
      (∃ i, i < desc.axis_labels.length ∧
        (slices.map Prod.fst).contains (desc.axis_labels.getD i "") = false ∧
        arr.shape.getD i 0 ≠ desc.shape.getD i 0) →
      ∃ e, db.add_slice name arr slices = Except.error e) ∧
    (List.lookup name db.parmdescs = none →
      ∃ e, db.add_slice name arr slices = Except.error e) ∧
    (shape2.length ≠ labels2.length →
      ∃ e, db.define_param name shape2 dt labels2 grids2 emp
        = Except.error e) := by
  refine ⟨?_, ?_, ?_⟩
  · intro hdesc hbad
    obtain ⟨i, hi, hcon, hne⟩ := hbad
    unfold SimpleParameterDB.add_slice
    split
    · exact ⟨_, rfl⟩
    · split
      · next heq =>
          rw [hdesc] at heq
          cases heq
      · next desc2 heq =>
          have hd2 : desc = desc2 := by
            rw [hdesc] at heq
            exact Option.some.inj heq
          subst hd2
          have hany : ((List.range desc.axis_labels.length).any fun j =>
              !((slices.map Prod.fst).contains (desc.axis_labels.getD j "")) &&
              (arr.shape.getD j 0 != desc.shape.getD j 0)) = true := by
            refine List.any_eq_true.2 ⟨i, List.mem_range.2 hi, ?_⟩
            rw [Bool.and_eq_true]
            refine ⟨?_, bne_iff_ne.2 hne⟩
            rw [hcon]
            rfl
          by_cases hall : (slices.all fun s => desc.axis_labels.contains s.1) = true
          · rw [if_neg (not_not_intro hall), if_pos hany]
            exact ⟨_, rfl⟩
          · rw [if_pos hall]
            exact ⟨_, rfl⟩
  · intro hnone
    unfold SimpleParameterDB.add_slice
    split
    · exact ⟨_, rfl⟩
    · split
      · exact ⟨_, rfl⟩
      · next desc2 heq =>
          rw [hnone] at heq
          cases heq
  · intro hlen
    unfold SimpleParameterDB.define_param
    split
    · exact ⟨_, rfl⟩
    · exact ⟨_, rfl⟩


/-- Witness for C9 on a concrete database: an array mismatching the ant
axis, an undefined parameter name, and a two-extent shape with one axis
label are all rejected. -/
theorem c9_db_shape_checks_witness :
    (∃ e, dbFix.add_slice "G" ⟨[4, 10], []⟩ [] = Except.error e) ∧
    (∃ e, dbFix.add_slice "H" ⟨[3, 10], []⟩ [] = Except.error e) ∧
    (∃ e, dbFix.define_param "G" [1, 2] DType.single ["a"] [] 0
      = Except.error e) :=
  ⟨(c9_db_shape_checks dbFix "G" ⟨[4, 10], []⟩ [] descG [1, 2] ["a"]
      DType.single [] 0).1 (by decide) ⟨0, by decide, by decide, by decide⟩,
   (c9_db_shape_checks dbFix "H" ⟨[3, 10], []⟩ [] descG [1, 2] ["a"]
      DType.single [] 0).2.1 (by decide),
   (c9_db_shape_checks dbFix "G" ⟨[3, 10], []⟩ [] descG [1, 2] ["a"]
      DType.single [] 0).2.2 (by decide)⟩

/-- Claim C10: every freshly constructed machine has no posterior slope
error, importing solutions leaves it absent, and export_solutions fails on
such a machine (both fresh and after an import) instead of returning
zero-valued errors. -/
theorem c10_export_requires_update (ndir nmod ntim nfre nant tint fint : Nat)
    (cts cfs : NArray) (ftype : DType) (ra : Option Nat) (fd : List Nat)
    (eps : ℚ) (cis : ℚ → QC) (t : String) (sd : Label → Option TSliceVal)
    (ht : t = "tf-plane" ∨ t = "f-slope" ∨ t = "t-slope") :
    ∃ mach, PhaseSlopeGains.init ndir nmod ntim nfre nant tint fint cts cfs
        ftype ra fd eps cis t = Except.ok mach ∧
      mach.posterior_slope_error = none ∧
      (import_solutions mach sd).posterior_slope_error = none ∧
      export_solutions mach = none ∧
      export_solutions (import_solutions mach sd) = none := by
  rcases ht with rfl | rfl | rfl <;>
    exact ⟨_, rfl, rfl, (import_solutions_posterior _ sd).trans rfl,
      export_solutions_none _ rfl,
      export_solutions_none _ ((import_solutions_posterior _ sd).trans rfl)⟩

/-- Witness for C10 at concrete construction arguments and the tf-plane
type value. -/
theorem c10_export_requires_update_witness :
    ∃ mach, PhaseSlopeGains.init 1 1 1 1 1 1 1 ⟨[0], DType.double⟩
        ⟨[0], DType.double⟩ DType.double none [] 0 (fun _ => ⟨1, 0⟩)
        "tf-plane" = Except.ok mach ∧
      mach.posterior_slope_error = none ∧
      (import_solutions mach (phaseOnlyDict vSeven)).posterior_slope_error = none ∧
      export_solutions mach = none ∧
      export_solutions (import_solutions mach (phaseOnlyDict vSeven)) = none :=
  c10_export_requires_update 1 1 1 1 1 1 1 ⟨[0], DType.double⟩
    ⟨[0], DType.double⟩ DType.double none [] 0 (fun _ => ⟨1, 0⟩)
    "tf-plane" (phaseOnlyDict vSeven) (Or.inl rfl)
